import Mathlib

/-!
Verification of the natural-language specification of `i3bar_statusline.py`
against a shallow embedding of its code.

Conventions of the embedding:
* Python strings and bytes are modelled as Lean `String` / `List Char`;
  the string primitives used by the source (`strip`, `split`, `splitlines`,
  `upper`, substring test, `int()`, `float()`) are re-implemented
  structurally on `List Char` so that every definition evaluates by kernel
  reduction.  The ASCII subset suffices for every comparison the source
  performs.
* Python floats are modelled as exact fractions (`Frac`': an `Int` numerator
  and positive `Int` denominator).  Every numeric value reached by the
  claims is exactly representable, far below any double-precision boundary.
* Fallible Python code (exceptions: `CalledProcessError`, `IndexError`,
  `KeyError`, `ValueError`, `ZeroDivisionError`) is modelled with `Option`:
  `none` is an exception propagating out of the call.
* External processes are modelled by their observable result: a return code
  and captured stdout (`ProcResult`); pseudo-files by their text content.
-/

/-- Python whitespace, as recognised by argument-less `str.split`,
`str.strip`, `bytes.split` and `bytes.strip` (ASCII part). -/
def isPySpace (c : Char) : Bool :=
  c == ' ' || c == '\t' || c == '\n' || c == '\r' || c == '\x0b' || c == '\x0c'

/-- Model of Python `strip()` on the character list of a string. -/
def pyStripL (l : List Char) : List Char :=
  ((l.dropWhile isPySpace).reverse.dropWhile isPySpace).reverse

/-- Model of Python `str.strip()` / `bytes.strip()`. -/
def pyStrip (s : String) : String :=
  String.mk (pyStripL s.data)

/-- Whitespace-separated groups of a character list; empty groups appear
where separators are adjacent and are filtered out by `pySplit`. -/
def pySplitGroups (l : List Char) : List (List Char) :=
  l.foldr
    (fun c acc =>
      if isPySpace c then [] :: acc
      else
        match acc with
        | [] => [[c]]
        | t :: ts => (c :: t) :: ts)
    []

/-- Model of argument-less Python `split()`: tokens separated by runs of
whitespace, with no empty tokens. -/
def pySplit (s : String) : List String :=
  ((pySplitGroups s.data).filter (fun t => !t.isEmpty)).map String.mk

/-- Newline-separated segments of a character list, with no empty trailing
segment, mirroring Python `splitlines()` for `\n`-separated text. -/
def pySplitlinesGroups (l : List Char) : List (List Char) :=
  l.foldr
    (fun c acc =>
      if c == '\n' then [] :: acc
      else
        match acc with
        | [] => [[c]]
        | t :: ts => (c :: t) :: ts)
    []

/-- Model of Python `splitlines()` (the source's data only uses `\n`). -/
def pySplitlines (s : String) : List String :=
  (pySplitlinesGroups s.data).map String.mk

/-- Whether `p` is a leading segment of `l`. -/
def startsWithL : List Char → List Char → Bool
  | [], _ => true
  | _ :: _, [] => false
  | p :: ps, c :: cs => p == c && startsWithL ps cs

/-- Whether `pat` occurs contiguously inside `l`. -/
def containsL (pat : List Char) : List Char → Bool
  | [] => pat.isEmpty
  | c :: cs => startsWithL pat (c :: cs) || containsL pat cs

/-- Model of Python `pat in s` (substring test), also of
`s.find(pat) > -1`. -/
def strContains (s pat : String) : Bool :=
  containsL pat.data s.data

/-- Accumulating decimal-digit reader: fails on the first non-digit. -/
def digitsValAux : Nat → List Char → Option Nat
  | acc, [] => some acc
  | acc, c :: cs =>
    if c.isDigit then digitsValAux (10 * acc + (c.toNat - 48)) cs else none

/-- Value of a non-empty all-digit character list. -/
def digitsVal : List Char → Option Nat
  | [] => none
  | l => digitsValAux 0 l

/-- Model of Python `int(s)` on the inputs the source can meet: optional
sign, decimal digits, surrounding whitespace allowed; anything else raises
`ValueError` (`none`). -/
def pyIntL (l : List Char) : Option Int :=
  match pyStripL l with
  | '-' :: rest => (digitsVal rest).map (fun n => -(n : Int))
  | '+' :: rest => (digitsVal rest).map (fun n => (n : Int))
  | t => (digitsVal t).map (fun n => (n : Int))

/-- Model of Python `int(s)` for strings. -/
def pyInt (s : String) : Option Int :=
  pyIntL s.data

/-- ASCII uppercasing of one character, the fragment of Python
`str.upper()` relevant to the source's comparison with `'TRUE'` (no
non-ASCII character uppercases onto the letters T, R, U, E). -/
def pyCharUpper (c : Char) : Char :=
  if 97 ≤ c.toNat ∧ c.toNat ≤ 122 then Char.ofNat (c.toNat - 32) else c

/-- ASCII lowercasing of one character (used to state case-insensitive
equality the way the specification words it). -/
def pyCharLower (c : Char) : Char :=
  if 65 ≤ c.toNat ∧ c.toNat ≤ 90 then Char.ofNat (c.toNat + 32) else c

/-- Model of Python `str.upper()`. -/
def pyUpper (s : String) : String :=
  String.mk (s.data.map pyCharUpper)

/-- Model of Python `str.lower()`. -/
def pyLower (s : String) : String :=
  String.mk (s.data.map pyCharLower)

/-- Case-insensitive string equality, following the specification's words
(two strings are equal case-insensitively when their lowercasings agree). -/
def eqCaseInsensitive (s t : String) : Bool :=
  pyLower s == pyLower t

/-- Exact fraction: the embedding of a Python float value.  All
constructions in this file keep `den` positive. -/
structure Frac where
  num : Int
  den : Int
deriving DecidableEq

/-- Difference of two fractions. -/
def Frac.sub (a b : Frac) : Frac :=
  ⟨a.num * b.den - b.num * a.den, a.den * b.den⟩

/-- Sum of two fractions. -/
def Frac.add (a b : Frac) : Frac :=
  ⟨a.num * b.den + b.num * a.den, a.den * b.den⟩

/-- Product of a fraction with an integer. -/
def Frac.mulInt (a : Frac) (n : Int) : Frac :=
  ⟨a.num * n, a.den⟩

/-- Quotient of a fraction by a positive integer. -/
def Frac.divInt (a : Frac) (n : Int) : Frac :=
  ⟨a.num, a.den * n⟩

/-- Order on fractions with positive denominators. -/
def Frac.le (a b : Frac) : Prop :=
  a.num * b.den ≤ b.num * a.den

/-- Strict order on fractions with positive denominators. -/
def Frac.lt (a b : Frac) : Prop :=
  a.num * b.den < b.num * a.den

instance (a b : Frac) : Decidable (Frac.le a b) :=
  inferInstanceAs (Decidable (a.num * b.den ≤ b.num * a.den))

instance (a b : Frac) : Decidable (Frac.lt a b) :=
  inferInstanceAs (Decidable (a.num * b.den < b.num * a.den))

/-- Truncation toward zero, the behaviour of Python `int()` on a float
(`den` positive). -/
def Frac.trunc (a : Frac) : Int :=
  Int.tdiv a.num a.den

/-- Floor of a fraction with positive denominator. -/
def Frac.floor (a : Frac) : Int :=
  Int.fdiv a.num a.den

/-- Round to the nearest integer, ties to even: the rounding of Python's
`round` (`den` positive). -/
def Frac.roundHalfEven (a : Frac) : Int :=
  let f := a.floor
  let rem2 : Int := 2 * (a.num - f * a.den)
  if rem2 < a.den then f
  else if a.den < rem2 then f + 1
  else if Int.emod f 2 = 0 then f else f + 1

/-- Python `round(a, 2)`, returned as a count of hundredths. -/
def pyRound2Num (a : Frac) : Int :=
  Frac.roundHalfEven (Frac.mulInt a 100)

/-- Python `str()` of the float value `n100 / 100` (a value with at most
two decimals prints its integer part, a dot, and its decimals with the
trailing zero dropped but at least one digit kept). -/
def pyFloatStr2 (n100 : Int) : String :=
  let neg := n100 < 0
  let m := if neg then -n100 else n100
  let ip := Int.tdiv m 100
  let h := Int.emod m 100
  (if neg then "-" else "") ++ toString ip ++
    (if h = 0 then ".0"
     else if Int.emod h 10 = 0 then "." ++ toString (Int.tdiv h 10)
     else if h < 10 then ".0" ++ toString h
     else "." ++ toString h)

/-- State of `Block` (`i3bar_statusline.py`, class `Block`): the update
interval, the time of the last update, and the cached attribute set.  The
attribute set is kept abstract (`α`); each subclass only rewrites it
through its `update` method. -/
structure BlockState (α : Type) where
  update_interval : Frac
  last_update : Frac
  attr : α
deriving DecidableEq

/-- Model of `Block.get_attributes` (lines 53-61).  `update` is the
subclass's `update` method acting on the cached attributes; `t1` is the
value of `time.time()` read by the staleness test and `t2` the value read
immediately after `update()` returns.  The result is the new block state
together with the returned attribute set. -/
def get_attributes {α : Type} (update : α → α) (t1 t2 : Frac)
    (b : BlockState α) : BlockState α × α :=
  if Frac.le b.update_interval (Frac.sub t1 b.last_update) then
    let a := update b.attr
    ({ b with attr := a, last_update := t2 }, a)
  else (b, b.attr)

/-- Loop body of `IwdStatusBlock.update` (lines 85-89): scan the lines,
and on every line containing `b'network'` overwrite the running name with
the third whitespace token of the stripped line (`line_parts[2]`;
`none` models the `IndexError` raised when fewer than three tokens
exist). -/
def iwdLoop : List String → String → Option String
  | [], acc => some acc
  | line :: rest, acc =>
    if strContains line ("network") then
      match (pySplit (pyStrip line))[2]? with
      | none => none
      | some tok => iwdLoop rest tok
    else iwdLoop rest acc

/-- Model of `IwdStatusBlock.update` (lines 78-90) as a function of the
captured stdout of `iwctl station wlan0 show`: the resulting `full_text`
(or `none` for a propagating exception). -/
def iwdUpdate (stdout : String) : Option String :=
  iwdLoop (pySplitlines (pyStrip stdout)) ("No wlan connection")

/-- Model of `NetworkManagerWIFIBlock.update` (lines 92-103) as a function
of the captured stdout of `nmcli`: the whole output is split on
whitespace, and the last token is the name (the fallback string when there
is none). -/
def nmcliUpdate (stdout : String) : String :=
  match (pySplit stdout).getLast? with
  | none => "No wlan connection"
  | some t => t

/-- Observable result of a `subprocess.run` call: exit status and captured
stdout. -/
structure ProcResult where
  returncode : Int
  stdout : String
deriving DecidableEq

/-- Model of `AudioBlock.update` (lines 105-128) as a function of the two
mixer query results.  `check=True` on the volume query raises
`CalledProcessError` exactly when its return code is non-zero, which the
`except` clause turns into the fallback text; the mute query's return code
is never inspected.  The icon literals of the source
(`'\U0001F507 '` …) each end in one space.  The decimal literals `33.3`
and `66.3` are exact as fractions here; for the integer `int(volume)` the
comparison with the double nearest to each literal agrees with the exact
comparison. -/
def audioUpdate (volume mute : ProcResult) : Option String :=
  if volume.returncode ≠ 0 then
    some ("Could not find audio")
  else
    let muteB := pyUpper (pyStrip mute.stdout) == "TRUE"
    let v := pyStrip volume.stdout
    if muteB then some ("🔇 " ++ v ++ "%")
    else
      match pyInt v with
      | none => none
      | some n =>
        if Frac.lt ⟨n, 1⟩ ⟨333, 10⟩ then some ("🔈 " ++ v ++ "%")
        else if Frac.lt ⟨n, 1⟩ ⟨663, 10⟩ then some ("🔉 " ++ v ++ "%")
        else some ("🔊 " ++ v ++ "%")

/-- Split a character list at the first dot, if any. -/
def splitDot : List Char → List Char × Option (List Char)
  | [] => ([], none)
  | c :: rest =>
    if c == '.' then ([], some rest)
    else
      let p := splitDot rest
      (c :: p.1, p.2)

/-- Model of Python `float(s)` on plain decimal literals (optional sign,
digits, optional dot): the exact value, or `none` for the `ValueError` on
anything else. -/
def pyFloatL (l : List Char) : Option Frac :=
  let t := pyStripL l
  let signed : Int × List Char :=
    match t with
    | '-' :: rest => (-1, rest)
    | '+' :: rest => (1, rest)
    | _ => (1, t)
  match splitDot signed.2 with
  | (a, none) => (digitsVal a).map (fun n => ⟨signed.1 * n, 1⟩)
  | (a, some b) =>
    if b.contains '.' then none
    else if a.isEmpty && b.isEmpty then none
    else
      match (if a.isEmpty then some 0 else digitsVal a),
            (if b.isEmpty then some 0 else digitsVal b) with
      | some ip, some fp =>
        some ⟨signed.1 * ((ip : Int) * 10 ^ b.length + fp), (10 : Int) ^ b.length⟩
      | _, _ => none

/-- Model of Python `float(s)` for strings. -/
def pyFloat (s : String) : Option Frac :=
  pyFloatL s.data

/-- Loop of `CpuBlock.update` (lines 134-142): collect, in file order,
`float` of the last whitespace token of every line containing
`'cpu MHz'`. -/
def cpuCollect : List String → Option (List Frac)
  | [] => some []
  | line :: rest =>
    if strContains line ("cpu MHz") then
      match (pySplit line).getLast? with
      | none => none
      | some tok =>
        match pyFloat tok with
        | none => none
        | some v => (cpuCollect rest).map (fun vs => v :: vs)
    else cpuCollect rest

/-- Model of `CpuBlock.update` (lines 131-144) as a function of the text
of `/proc/cpuinfo`: the truncated mean of the collected frequencies,
formatted; `none` models the `ZeroDivisionError` when no line matched. -/
def cpuUpdate (text : String) : Option String := do
  let vs ← cpuCollect (pySplitlines text)
  if vs.length = 0 then none
  else
    pure (toString (Frac.trunc (Frac.divInt (vs.foldl Frac.add ⟨0, 1⟩)
      (vs.length : Int))) ++ " MHz")

/-- Dictionary-building loop of `RamBlock.update` (lines 155-159) over the
lines of `/proc/meminfo`.  The accumulator is an association list with the
most recent binding in front, so `List.lookup` sees exactly what the
Python dict holds; `none` models the `IndexError` on a line with fewer
than two tokens or the `ValueError` of `int`. -/
def parseMeminfoAux : List (String × Int) → List String → Option (List (String × Int))
  | d, [] => some d
  | d, line :: rest =>
    match (pySplit line)[0]?, (pySplit line)[1]? with
    | some key, some vstr =>
      match pyInt vstr with
      | some v => parseMeminfoAux ((key, v) :: d) rest
      | none => none
    | _, _ => none

/-- The dictionary built by `RamBlock.update` from the meminfo lines. -/
def parseMeminfo (lines : List String) : Option (List (String × Int)) :=
  parseMeminfoAux [] lines

/-- Model of `RamBlock.update` (lines 146-169) as a function of the lines
of `/proc/meminfo`: `used = MemTotal − MemFree − Buffers − Cached −
SReclaimable` (keys carry the trailing colon), divided by 1000000, rounded
to two decimals, formatted; `none` models a propagating `KeyError`. -/
def ramUpdate (lines : List String) : Option String := do
  let d ← parseMeminfo lines
  let t ← d.lookup ("MemTotal:")
  let f ← d.lookup ("MemFree:")
  let b ← d.lookup ("Buffers:")
  let c ← d.lookup ("Cached:")
  let s ← d.lookup ("SReclaimable:")
  pure (pyFloatStr2 (pyRound2Num ⟨t - f - b - c - s, 1000000⟩) ++ " Gb")

/-- Attribute dictionary of a block as `Block.__init__` builds it: the two
keys `full_text` (possibly `None`) and `name`, in that insertion order. -/
structure Attr where
  full_text : Option String
  name : String
deriving DecidableEq

/-- Lowercase hexadecimal digit, as `%04x` formatting produces. -/
def hexDigitChar (n : Nat) : Char :=
  if n < 10 then Char.ofNat (48 + n) else Char.ofNat (87 + n)

/-- Four lowercase hex digits of `n < 65536`. -/
def hex4 (n : Nat) : List Char :=
  [hexDigitChar (n / 4096 % 16), hexDigitChar (n / 256 % 16),
   hexDigitChar (n / 16 % 16), hexDigitChar (n % 16)]

/-- Escaping of one character by `json.dumps` with its defaults
(`ensure_ascii=True`): the two-character escapes for the quote, backslash
and common control characters, the character itself when printable ASCII,
and `\uXXXX` escapes (a surrogate pair beyond the basic plane)
otherwise. -/
def escapeChar (c : Char) : List Char :=
  if c = '"' then ['\\', '"']
  else if c = '\\' then ['\\', '\\']
  else if c = '\n' then ['\\', 'n']
  else if c = '\r' then ['\\', 'r']
  else if c = '\t' then ['\\', 't']
  else if c = '\x08' then ['\\', 'b']
  else if c = '\x0c' then ['\\', 'f']
  else if 32 ≤ c.toNat ∧ c.toNat ≤ 126 then [c]
  else if c.toNat < 65536 then '\\' :: 'u' :: hex4 c.toNat
  else
    ('\\' :: 'u' :: hex4 (55296 + (c.toNat - 65536) / 1024)) ++
      ('\\' :: 'u' :: hex4 (56320 + (c.toNat - 65536) % 1024))

/-- JSON string literal for the characters `l`. -/
def jsonStringL (l : List Char) : List Char :=
  '"' :: (l.map escapeChar).flatten ++ ['"']

/-- The JSON literal `null` (serialization of Python `None`). -/
def jsonNull : List Char :=
  ['n', 'u', 'l', 'l']

/-- One `key: value` member as `json.dumps` renders it (default `': '`
separator). -/
def memberL (k : List Char) (v : List Char) : List Char :=
  jsonStringL k ++ ':' :: ' ' :: v

/-- Serialization of an optional string value. -/
def jsonScalarOfOpt : Option String → List Char
  | none => jsonNull
  | some s => jsonStringL s.data

/-- Serialization by `json.dumps` of one block's attribute dictionary, in
its insertion order `full_text`, `name`. -/
def dumpAttrL (a : Attr) : List Char :=
  '\x7b' :: (memberL ("full_text".data) (jsonScalarOfOpt a.full_text) ++
    ',' :: ' ' :: memberL ("name".data) (jsonStringL a.name.data)) ++ ['\x7d']

/-- The `', '.join` of `json.dumps` between consecutive array items. -/
def joinComma : List (List Char) → List Char
  | [] => []
  | [x] => x
  | x :: y :: rest => x ++ ',' :: ' ' :: joinComma (y :: rest)

/-- Serialization by `json.dumps` of the list of attribute dictionaries
collected by `StatusLine.print` (lines 197-199), in block order. -/
def recordL (bs : List Attr) : List Char :=
  '[' :: joinComma (bs.map dumpAttrL) ++ [']']

/-- Model of `StatusLine.print` (lines 195-200): the single line printed
on one tick, `json.dumps(statusline) + ","`. -/
def statusLinePrint (bs : List Attr) : String :=
  String.mk (recordL bs ++ [','])

/-- Hexadecimal digit of JSON's `\u` escapes. -/
def isHexChar (c : Char) : Bool :=
  (('0' ≤ c && c ≤ '9') || ('a' ≤ c && c ≤ 'f') || ('A' ≤ c && c ≤ 'F'))

/-- Character sequences allowed inside a JSON string literal
(RFC 8259 §7): unescaped characters are at least `0x20` and neither the
quote nor the backslash; escapes are the named ones or `\u` with four hex
digits. -/
inductive JStrChars : List Char → Prop where
  | nil : JStrChars []
  | plain (c : Char) {l : List Char} (h1 : c ≠ '"') (h2 : c ≠ '\\')
      (h3 : 32 ≤ c.toNat) (h : JStrChars l) : JStrChars (c :: l)
  | esc (c : Char) {l : List Char}
      (hc : c ∈ ['"', '\\', '/', 'b', 'f', 'n', 'r', 't'])
      (h : JStrChars l) : JStrChars ('\\' :: c :: l)
  | uni (a b c d : Char) {l : List Char} (ha : isHexChar a = true)
      (hb : isHexChar b = true) (hc : isHexChar c = true)
      (hd : isHexChar d = true) (h : JStrChars l) :
      JStrChars ('\\' :: 'u' :: a :: b :: c :: d :: l)

/-- Valid JSON string literals. -/
inductive JString : List Char → Prop where
  | mk (body : List Char) (h : JStrChars body) :
      JString ('"' :: body ++ ['"'])

/-- Valid JSON values of the shapes a block attribute takes (a string or
`null`); a fragment of the JSON value grammar. -/
inductive JScalar : List Char → Prop where
  | str {s : List Char} (h : JString s) : JScalar s
  | null : JScalar jsonNull

/-- A valid JSON object member with `': '` after the key. -/
inductive JMember : List Char → Prop where
  | mk {k v : List Char} (hk : JString k) (hv : JScalar v) :
      JMember (k ++ ':' :: ' ' :: v)

/-- A non-empty comma-separated member list. -/
inductive JMembers : List Char → Prop where
  | single {m : List Char} (h : JMember m) : JMembers m
  | cons {m rest : List Char} (h : JMember m) (hr : JMembers rest) :
      JMembers (m ++ ',' :: ' ' :: rest)

/-- Valid JSON objects (with the canonical spacing `json.dumps` uses). -/
inductive JObject : List Char → Prop where
  | empty : JObject ['\x7b', '\x7d']
  | mk {ms : List Char} (h : JMembers ms) : JObject ('\x7b' :: ms ++ ['\x7d'])

/-- A non-empty comma-separated list of array elements, each an object. -/
inductive JElems : List Char → Prop where
  | single {v : List Char} (h : JObject v) : JElems v
  | cons {v rest : List Char} (h : JObject v) (hr : JElems rest) :
      JElems (v ++ ',' :: ' ' :: rest)

/-- Valid JSON arrays whose elements are objects; every member of this
predicate is a syntactically valid JSON array. -/
inductive JArray : List Char → Prop where
  | empty : JArray ['[', ']']
  | mk {es : List Char} (h : JElems es) : JArray ('[' :: es ++ [']'])

/-! ## Helper lemmas -/

theorem iwdLoop_no_marker (ls : List String) (acc : String)
    (h : ∀ l ∈ ls, strContains l ("network") = false) :
    iwdLoop ls acc = some acc := by
  induction ls with
  | nil => rfl
  | cons x xs ih =>
    rw [iwdLoop, h x (by simp)]
    simp only [Bool.false_eq_true, if_false]
    exact ih (fun l hl => h l (by simp [hl]))

theorem iwdLoop_append (xs ys : List String) (acc : String) :
    iwdLoop (xs ++ ys) acc = (iwdLoop xs acc).bind (fun a => iwdLoop ys a) := by
  induction xs generalizing acc with
  | nil => rfl
  | cons x rest ih =>
    rw [List.cons_append, iwdLoop, iwdLoop]
    by_cases hx : strContains x ("network") = true
    · rw [if_pos hx, if_pos hx]
      cases (pySplit (pyStrip x))[2]? with
      | none => rfl
      | some tok => exact ih tok
    · rw [if_neg hx, if_neg hx]
      exact ih acc

theorem iwdLoop_isSome (ls : List String) (acc : String)
    (h : ∀ l ∈ ls, strContains l ("network") = true →
        ((pySplit (pyStrip l))[2]?).isSome = true) :
    ∃ a, iwdLoop ls acc = some a := by
  induction ls generalizing acc with
  | nil => exact ⟨acc, rfl⟩
  | cons x rest ih =>
    rw [iwdLoop]
    by_cases hx : strContains x ("network") = true
    · rw [if_pos hx]
      have hsome := h x (by simp) hx
      cases htok : (pySplit (pyStrip x))[2]? with
      | none => rw [htok] at hsome; simp at hsome
      | some tok => exact ih tok (fun l hl => h l (by simp [hl]))
    · rw [if_neg hx]
      exact ih acc (fun l hl => h l (by simp [hl]))

/-! ## Claims -/

/-- Claim C1: `get_attributes` refreshes the cache (runs `update` and sets
`last_update`) exactly when the current time minus `last_update` is at
least the update interval; otherwise it leaves the block state untouched
and returns the cached attributes, so repeated calls before the interval
elapses return identical attribute sets. -/
theorem get_attributes_refresh_iff {α : Type} (u : α → α) (t1 t2 t1' t2' : Frac)
    (b : BlockState α) :
    (Frac.le b.update_interval (Frac.sub t1 b.last_update) →
      get_attributes u t1 t2 b =
        ({ b with attr := u b.attr, last_update := t2 }, u b.attr))
  ∧ (¬ Frac.le b.update_interval (Frac.sub t1 b.last_update) →
      get_attributes u t1 t2 b = (b, b.attr))
  ∧ (¬ Frac.le b.update_interval (Frac.sub t1 b.last_update) →
     ¬ Frac.le b.update_interval (Frac.sub t1' b.last_update) →
      (get_attributes u t1' t2' (get_attributes u t1 t2 b).1).2 = b.attr
      ∧ (get_attributes u t1 t2 b).2 = b.attr) := by
  refine ⟨fun h => ?_, fun h => ?_, fun h h' => ?_⟩
  · rw [get_attributes, if_pos h]
  · rw [get_attributes, if_neg h]
  · have e1 : get_attributes u t1 t2 b = (b, b.attr) := by
      rw [get_attributes, if_neg h]
    rw [e1]
    have e2 : get_attributes u t1' t2' b = (b, b.attr) := by
      rw [get_attributes, if_neg h']
    exact ⟨by rw [e2], rfl⟩

theorem get_attributes_refresh_iff_witness :
    Frac.le (⟨10, 1⟩ : Frac) (Frac.sub ⟨12, 1⟩ ⟨0, 1⟩)
  ∧ get_attributes (fun n => n + 1) ⟨12, 1⟩ ⟨13, 1⟩
      (⟨⟨10, 1⟩, ⟨0, 1⟩, (5 : Int)⟩ : BlockState Int) = (⟨⟨10, 1⟩, ⟨13, 1⟩, 6⟩, 6)
  ∧ get_attributes (fun n => n + 1) ⟨3, 1⟩ ⟨4, 1⟩
      (⟨⟨10, 1⟩, ⟨0, 1⟩, (5 : Int)⟩ : BlockState Int) = (⟨⟨10, 1⟩, ⟨0, 1⟩, 5⟩, 5) :=
  ⟨by decide,
   by
    have h := (get_attributes_refresh_iff (fun n : Int => n + 1) ⟨12, 1⟩ ⟨13, 1⟩
      ⟨3, 1⟩ ⟨4, 1⟩ ⟨⟨10, 1⟩, ⟨0, 1⟩, (5 : Int)⟩).1 (by decide)
    exact h.trans (by decide),
   by
    have h := (get_attributes_refresh_iff (fun n : Int => n + 1) ⟨3, 1⟩ ⟨4, 1⟩
      ⟨12, 1⟩ ⟨13, 1⟩ ⟨⟨10, 1⟩, ⟨0, 1⟩, (5 : Int)⟩).2.1 (by decide)
    exact h.trans (by decide)⟩

/-- Claim C2 counterexample: at volume 0 and mute false the audio block
does not produce the spec's string since the source's icon literals each
carry a trailing space: the actual output separates icon and number with
one space. -/
theorem audio_icon_space_counterexample :
    audioUpdate ⟨0, "0"⟩ ⟨0, "false"⟩ = some ("🔈 0%")
  ∧ some ("🔈 0%") ≠ some ("🔈0%") := by
  constructor
  · decide
  · decide

/-- Claim C2 (amended): when both mixer queries succeed, `full_text` is
selected by threshold — mute gives the muted icon, volume below 33.3 the
low icon, below 66.3 the mid icon, else the high icon — and is the icon
literal (which ends in one space), the volume string unchanged, and a
percent sign. -/
theorem audio_thresholds (vo mu : ProcResult) (n : Int)
    (h0 : vo.returncode = 0)
    (hn : pyInt (pyStrip vo.stdout) = some n)
    (hm : pyUpper (pyStrip mu.stdout) ≠ "TRUE") :
    audioUpdate vo mu = some
      ((if Frac.lt ⟨n, 1⟩ ⟨333, 10⟩ then "🔈 "
        else if Frac.lt ⟨n, 1⟩ ⟨663, 10⟩ then "🔉 " else "🔊 ")
        ++ pyStrip vo.stdout ++ "%")
  ∧ ∀ mu' : ProcResult, pyUpper (pyStrip mu'.stdout) = "TRUE" →
      audioUpdate vo mu' = some ("🔇 " ++ pyStrip vo.stdout ++ "%") := by
  constructor
  · rw [audioUpdate, if_neg (by rw [h0]; exact fun hne => hne rfl)]
    simp only [beq_iff_eq, hm, if_false, hn]
    split <;> first | rfl | (split <;> rfl)
  · intro mu' hm'
    rw [audioUpdate, if_neg (by rw [h0]; exact fun hne => hne rfl)]
    simp only [beq_iff_eq, hm', if_true]

theorem audio_thresholds_witness :
    audioUpdate ⟨0, "0"⟩ ⟨0, "false"⟩ = some ("🔈 0%")
  ∧ audioUpdate ⟨0, "50"⟩ ⟨0, "false"⟩ = some ("🔉 50%")
  ∧ audioUpdate ⟨0, "100"⟩ ⟨0, "true"⟩ = some ("🔇 100%") :=
  ⟨((audio_thresholds ⟨0, "0"⟩ ⟨0, "false"⟩ 0 (by decide) (by decide)
      (by decide)).1).trans (by decide),
   ((audio_thresholds ⟨0, "50"⟩ ⟨0, "false"⟩ 50 (by decide) (by decide)
      (by decide)).1).trans (by decide),
   ((audio_thresholds ⟨0, "100"⟩ ⟨0, "false"⟩ 100 (by decide) (by decide)
      (by decide)).2 ⟨0, "true"⟩ (by decide)).trans (by decide)⟩

/-- Claim C3 counterexample: on an output whose single line contains the
network-name marker, the NetworkManager variant returns the last
whitespace token of the whole output, not the third token of the marker
line as the claim states for every variant. -/
theorem nmcli_not_marker_third_token :
    nmcliUpdate ("conn network myessid junk") = "junk"
  ∧ (pySplit ("conn network myessid junk"))[2]? = some ("myessid")
  ∧ ("junk" : String) ≠ "myessid" := by
  refine ⟨by decide, by decide, by decide⟩

/-- Claim C3 (amended): the iwd variant scans for lines containing the
marker and keeps the third whitespace token of such lines as the network
name, while the NetworkManager variant takes the last whitespace token of
the entire output; when no marker line exists (iwd) or the output has no
tokens (NetworkManager), the literal fallback string is returned, and
neither variant throws on empty output. -/
theorem network_status_variants (s : String) :
    iwdUpdate ("") = some ("No wlan connection")
  ∧ nmcliUpdate ("") = "No wlan connection"
  ∧ ((∀ l ∈ pySplitlines (pyStrip s), strContains l ("network") = false) →
      iwdUpdate s = some ("No wlan connection"))
  ∧ (pySplit s = [] → nmcliUpdate s = "No wlan connection")
  ∧ (∀ t, (pySplit s).getLast? = some t → nmcliUpdate s = t)
  ∧ (∀ l rest t, pySplitlines (pyStrip s) = l :: rest →
      strContains l ("network") = true →
      (pySplit (pyStrip l))[2]? = some t →
      (∀ l' ∈ rest, strContains l' ("network") = false) →
      iwdUpdate s = some t) := by
  refine ⟨by decide, by decide, fun h => ?_, fun h => ?_, fun t h => ?_,
    fun l rest t hsplit hl ht hrest => ?_⟩
  · exact iwdLoop_no_marker _ _ h
  · rw [nmcliUpdate, h]; rfl
  · rw [nmcliUpdate, h]
  · rw [iwdUpdate, hsplit, iwdLoop, if_pos hl, ht]
    exact iwdLoop_no_marker _ _ hrest

theorem network_status_variants_witness :
    iwdUpdate ("abc\ndef") = some ("No wlan connection")
  ∧ nmcliUpdate ("a b c") = "c"
  ∧ iwdUpdate ("Connected network Alpha") = some ("Alpha") :=
  ⟨(network_status_variants ("abc\ndef")).2.2.1 (by decide),
   (network_status_variants ("a b c")).2.2.2.2.1 "c" (by decide),
   (network_status_variants ("Connected network Alpha")).2.2.2.2.2
     ("Connected network Alpha") [] ("Alpha") (by decide) (by decide)
     (by decide) (by decide)⟩

/-- Claim C6: when the volume query's process exits non-zero, the audio
block's text is exactly the fallback string, and the result does not
depend on the mute query at all (the mute query is never consulted). -/
theorem audio_failure_fallback (vo mu mu' : ProcResult)
    (h : vo.returncode ≠ 0) :
    audioUpdate vo mu = some ("Could not find audio")
  ∧ audioUpdate vo mu = audioUpdate vo mu' := by
  constructor
  · rw [audioUpdate, if_pos h]
  · rw [audioUpdate, if_pos h, audioUpdate, if_pos h]

theorem audio_failure_fallback_witness :
    audioUpdate ⟨1, ""⟩ ⟨0, "true"⟩ = some ("Could not find audio")
  ∧ audioUpdate ⟨1, ""⟩ ⟨0, "true"⟩ = audioUpdate ⟨1, ""⟩ ⟨0, "x"⟩ :=
  audio_failure_fallback ⟨1, ""⟩ ⟨0, "true"⟩ ⟨0, "x"⟩ (by decide)

/-- Claim C9: in the iwd variant, when several lines of the output contain
the marker `network`, the returned name is the third token of the last
matching line — each successive match overwrites the previous. -/
theorem iwd_last_marker_line_wins (stdout t : String) (ls : List String)
    (l : String)
    (hsplit : pySplitlines (pyStrip stdout) = ls ++ [l])
    (hl : strContains l ("network") = true)
    (ht : (pySplit (pyStrip l))[2]? = some t)
    (hprev : ∀ l' ∈ ls, strContains l' ("network") = true →
        ((pySplit (pyStrip l'))[2]?).isSome = true) :
    iwdUpdate stdout = some t := by
  rw [iwdUpdate, hsplit, iwdLoop_append]
  obtain ⟨a, ha⟩ := iwdLoop_isSome ls ("No wlan connection") hprev
  rw [ha]
  show iwdLoop [l] a = some t
  rw [iwdLoop, if_pos hl, ht]
  rfl

theorem iwd_last_marker_line_wins_witness :
    iwdUpdate ("  Connected network Alpha\n  Connected network Beta") =
      some ("Beta") :=
  iwd_last_marker_line_wins ("  Connected network Alpha\n  Connected network Beta")
    ("Beta") (["Connected network Alpha"]) ("  Connected network Beta")
    (by decide) (by decide) (by decide) (by decide)

theorem parseMeminfoAux_lookup (k : String) (lines : List String) :
    ∀ (d d' : List (String × Int)), parseMeminfoAux d lines = some d' →
    (∀ line ∈ lines, (pySplit line)[0]? ≠ some k) →
    d'.lookup k = d.lookup k := by
  induction lines with
  | nil =>
    intro d d' h _
    rw [parseMeminfoAux] at h
    cases h
    rfl
  | cons x xs ih =>
    intro d d' h habs
    rw [parseMeminfoAux] at h
    split at h
    · rename_i key vstr h0 h1
      split at h
      · rename_i v hv
        have hrest := ih ((key, v) :: d) d' h
          (fun l hl => habs l (List.mem_cons_of_mem _ hl))
        have hne : (k == key) = false := by
          refine beq_eq_false_iff_ne.mpr (fun he => ?_)
          exact habs x (List.mem_cons_self x xs) (by rw [h0, he])
        rw [hrest, List.lookup, hne]
      · exact absurd h (by simp)
    · exact absurd h (by simp)

theorem parseMeminfo_lookup_none (k : String) (lines : List String)
    (d : List (String × Int)) (hp : parseMeminfo lines = some d)
    (habs : ∀ line ∈ lines, (pySplit line)[0]? ≠ some k) :
    d.lookup k = none := by
  have := parseMeminfoAux_lookup k lines [] d hp habs
  simpa using this

theorem cpuCollect_no_marker (ls : List String)
    (h : ∀ l ∈ ls, strContains l ("cpu MHz") = false) :
    cpuCollect ls = some [] := by
  induction ls with
  | nil => rfl
  | cons x xs ih =>
    rw [cpuCollect, h x (by simp)]
    simp only [Bool.false_eq_true, if_false]
    exact ih (fun l hl => h l (by simp [hl]))

theorem cpuCollect_eq (ls : List String) :
    cpuCollect ls = (ls.filter (fun l => strContains l ("cpu MHz"))).mapM
      (fun l => ((pySplit l).getLast?).bind pyFloat) := by
  induction ls with
  | nil => rfl
  | cons x xs ih =>
    rw [cpuCollect]
    by_cases hx : strContains x ("cpu MHz") = true
    · simp only [hx, if_true, List.filter_cons, List.mapM_cons]
      cases hlast : (pySplit x).getLast? with
      | none => simp
      | some tok =>
        cases hfl : pyFloat tok with
        | none => simp [hfl]
        | some v =>
          rw [ih]
          cases hmm : (xs.filter (fun l => strContains l ("cpu MHz"))).mapM
              (fun l => ((pySplit l).getLast?).bind pyFloat) with
          | none => simp [hfl, hmm]
          | some vs => simp [hfl, hmm]
    · have hx' : strContains x ("cpu MHz") = false := by
        cases hcc : strContains x ("cpu MHz") with
        | false => rfl
        | true => exact absurd hcc hx
      simp only [hx', Bool.false_eq_true, if_false, List.filter_cons]
      exact ih

/-- Claim C4: on meminfo input containing the required keys, the RAM block
computes `used = MemTotal − MemFree − Buffers − Cached − SReclaimable` in
kB, divides by 1000000, rounds to two decimal places (ties to even), and
formats the result as the number followed by `Gb`. -/
theorem ram_used_formula (lines : List String) (d : List (String × Int))
    (t f b c s : Int)
    (hp : parseMeminfo lines = some d)
    (ht : d.lookup ("MemTotal:") = some t)
    (hf : d.lookup ("MemFree:") = some f)
    (hb : d.lookup ("Buffers:") = some b)
    (hc : d.lookup ("Cached:") = some c)
    (hs : d.lookup ("SReclaimable:") = some s) :
    ramUpdate lines =
      some (pyFloatStr2 (pyRound2Num ⟨t - f - b - c - s, 1000000⟩) ++ " Gb") := by
  rw [ramUpdate, hp]
  simp only [Option.bind_eq_bind, Option.some_bind]
  rw [ht, hf, hb, hc, hs]
  rfl

theorem ram_used_formula_witness :
    parseMeminfo (["MemTotal: 16000000 kB", "MemFree: 8000000 kB",
      "Buffers: 500000 kB", "Cached: 1500000 kB", "SReclaimable: 0 kB"]) =
      some ([("SReclaimable:", (0 : Int)), ("Cached:", 1500000),
        ("Buffers:", 500000), ("MemFree:", 8000000), ("MemTotal:", 16000000)])
  ∧ ramUpdate (["MemTotal: 16000000 kB", "MemFree: 8000000 kB",
      "Buffers: 500000 kB", "Cached: 1500000 kB", "SReclaimable: 0 kB"]) =
      some ("6.0 Gb") :=
  ⟨by decide,
   (ram_used_formula
      (["MemTotal: 16000000 kB", "MemFree: 8000000 kB", "Buffers: 500000 kB",
        "Cached: 1500000 kB", "SReclaimable: 0 kB"])
      ([("SReclaimable:", (0 : Int)), ("Cached:", 1500000), ("Buffers:", 500000),
        ("MemFree:", 8000000), ("MemTotal:", 16000000)])
      16000000 8000000 500000 1500000 0 (by decide) (by decide) (by decide)
      (by decide) (by decide) (by decide)).trans (by decide)⟩

/-- Claim C5: on cpuinfo input, the CPU block parses the trailing numeric
token of every line containing `cpu MHz`, computes the integer-truncated
arithmetic mean of the parsed values, and formats it as the number
followed by `MHz`. -/
theorem cpu_mean_of_lines (text : String) (vs : List Frac)
    (h : ((pySplitlines text).filter (fun l => strContains l ("cpu MHz"))).mapM
        (fun l => ((pySplit l).getLast?).bind pyFloat) = some vs)
    (hne : vs ≠ []) :
    cpuUpdate text =
      some (toString (Frac.trunc (Frac.divInt (vs.foldl Frac.add ⟨0, 1⟩)
        (vs.length : Int))) ++ " MHz") := by
  have hlen : ¬ vs.length = 0 := by simpa [List.length_eq_zero] using hne
  rw [cpuUpdate, cpuCollect_eq, h]
  simp only [Option.bind_eq_bind, Option.some_bind]
  rw [if_neg hlen]
  rfl

theorem cpu_mean_of_lines_witness :
    cpuUpdate ("cpu MHz : 1000.0\ncpu MHz : 2000.0\ncpu MHz : 3000.0") =
      some ("2000 MHz") :=
  (cpu_mean_of_lines ("cpu MHz : 1000.0\ncpu MHz : 2000.0\ncpu MHz : 3000.0")
    ([⟨10000, 10⟩, ⟨20000, 10⟩, ⟨30000, 10⟩]) (by decide) (by decide)).trans
    (by decide)

/-- Claim C7: when a required memory-stat key is absent from the meminfo
input, or the cpuinfo input contains no `cpu MHz` line, the corresponding
refresh raises an error that propagates out of the call (`none` in the
embedding): no fallback string is substituted. -/
theorem missing_data_propagates (lines : List String) (text : String)
    (k : String)
    (hk : k ∈ (["MemTotal:", "MemFree:", "Buffers:", "Cached:",
      "SReclaimable:"] : List String))
    (habsent : ∀ line ∈ lines, (pySplit line)[0]? ≠ some k)
    (hcpu : ∀ l ∈ pySplitlines text, strContains l ("cpu MHz") = false) :
    ramUpdate lines = none ∧ cpuUpdate text = none := by
  constructor
  · cases hp : parseMeminfo lines with
    | none => rw [ramUpdate, hp]; rfl
    | some d =>
      have hnone : d.lookup k = none := parseMeminfo_lookup_none k lines d hp habsent
      rw [ramUpdate, hp]
      simp only [Option.bind_eq_bind, Option.some_bind]
      have hk' : k = "MemTotal:" ∨ k = "MemFree:" ∨ k = "Buffers:" ∨
          k = "Cached:" ∨ k = "SReclaimable:" := by simpa using hk
      rcases hk' with rfl | rfl | rfl | rfl | rfl
      · rw [hnone]; rfl
      · cases h1 : d.lookup ("MemTotal:") with
        | none => rfl
        | some t => simp only [Option.bind_eq_bind, Option.some_bind]; rw [hnone]; rfl
      · cases h1 : d.lookup ("MemTotal:") with
        | none => rfl
        | some t =>
          simp only [Option.bind_eq_bind, Option.some_bind]
          cases h2 : d.lookup ("MemFree:") with
          | none => rfl
          | some f => simp only [Option.bind_eq_bind, Option.some_bind]; rw [hnone]; rfl
      · cases h1 : d.lookup ("MemTotal:") with
        | none => rfl
        | some t =>
          simp only [Option.bind_eq_bind, Option.some_bind]
          cases h2 : d.lookup ("MemFree:") with
          | none => rfl
          | some f =>
            simp only [Option.bind_eq_bind, Option.some_bind]
            cases h3 : d.lookup ("Buffers:") with
            | none => rfl
            | some b => simp only [Option.bind_eq_bind, Option.some_bind]; rw [hnone]; rfl
      · cases h1 : d.lookup ("MemTotal:") with
        | none => rfl
        | some t =>
          simp only [Option.bind_eq_bind, Option.some_bind]
          cases h2 : d.lookup ("MemFree:") with
          | none => rfl
          | some f =>
            simp only [Option.bind_eq_bind, Option.some_bind]
            cases h3 : d.lookup ("Buffers:") with
            | none => rfl
            | some b =>
              simp only [Option.bind_eq_bind, Option.some_bind]
              cases h4 : d.lookup ("Cached:") with
              | none => rfl
              | some c => simp only [Option.bind_eq_bind, Option.some_bind]; rw [hnone]; rfl
  · rw [cpuUpdate, cpuCollect_no_marker _ hcpu]
    rfl

theorem missing_data_propagates_witness :
    ramUpdate (["MemFree: 1 kB"]) = none ∧ cpuUpdate ("abc") = none :=
  missing_data_propagates (["MemFree: 1 kB"]) ("abc") ("MemTotal:")
    (by decide) (by decide) (by decide)

theorem char_toNat_ofNat (n : Nat) (h : n.isValidChar) :
    (Char.ofNat n).toNat = n := by
  rw [Char.ofNat, dif_pos h]
  rfl

theorem char_toNat_inj {c d : Char} (h : c.toNat = d.toNat) : c = d :=
  Char.eq_of_val_eq (UInt32.toNat.inj h)

theorem charUpper_eq_iff (c up low : Char)
    (hu : up.toNat = low.toNat - 32)
    (hl : 97 ≤ low.toNat ∧ low.toNat ≤ 122) :
    pyCharUpper c = up ↔ pyCharLower c = low := by
  have hu1 : 65 ≤ up.toNat ∧ up.toNat ≤ 90 := by omega
  unfold pyCharUpper pyCharLower
  by_cases h1 : 97 ≤ c.toNat ∧ c.toNat ≤ 122
  · rw [if_pos h1, if_neg (by omega)]
    constructor
    · intro h
      have h2 : (Char.ofNat (c.toNat - 32)).toNat = up.toNat := congrArg Char.toNat h
      rw [char_toNat_ofNat _ (Or.inl (by omega))] at h2
      exact char_toNat_inj (by omega)
    · intro h
      subst h
      apply char_toNat_inj
      rw [char_toNat_ofNat _ (Or.inl (by omega))]
      omega
  · by_cases h2 : 65 ≤ c.toNat ∧ c.toNat ≤ 90
    · rw [if_neg h1, if_pos h2]
      constructor
      · intro h
        subst h
        apply char_toNat_inj
        rw [char_toNat_ofNat _ (Or.inl (by omega))]
        omega
      · intro h
        have h3 : (Char.ofNat (c.toNat + 32)).toNat = low.toNat := congrArg Char.toNat h
        rw [char_toNat_ofNat _ (Or.inl (by omega))] at h3
        exact char_toNat_inj (by omega)
    · rw [if_neg h1, if_neg h2]
      constructor
      · intro h
        subst h
        exact absurd hu1 h2
      · intro h
        subst h
        exact absurd hl h1

theorem mapUpper_TRUE_iff (l : List Char) :
    l.map pyCharUpper = ['T', 'R', 'U', 'E'] ↔
      l.map pyCharLower = ['t', 'r', 'u', 'e'] := by
  rcases l with _ | ⟨a, _ | ⟨b, _ | ⟨c, _ | ⟨d, _ | ⟨e, rest⟩⟩⟩⟩⟩ <;>
    simp [charUpper_eq_iff _ 'T' 't' (by decide) (by decide),
          charUpper_eq_iff _ 'R' 'r' (by decide) (by decide),
          charUpper_eq_iff _ 'U' 'u' (by decide) (by decide),
          charUpper_eq_iff _ 'E' 'e' (by decide) (by decide)]

theorem pyUpper_TRUE_iff (s : String) :
    (pyUpper s = "TRUE") ↔ eqCaseInsensitive s ("true") = true := by
  have h1 : (pyUpper s = "TRUE") ↔ s.data.map pyCharUpper = ['T', 'R', 'U', 'E'] := by
    constructor
    · intro h
      exact congrArg String.data h
    · intro h
      exact (congrArg String.mk h).trans (by decide)
  have h3 : (eqCaseInsensitive s ("true") = true) ↔
      s.data.map pyCharLower = ['t', 'r', 'u', 'e'] := by
    rw [eqCaseInsensitive, beq_iff_eq]
    constructor
    · intro h
      exact congrArg String.data h
    · intro h
      exact (congrArg String.mk h).trans (by decide)
  rw [h1, h3]
  exact mapUpper_TRUE_iff s.data

/-- Claim C10: the audio block ignores the exit status of the mute query
(the result depends only on its stdout); mute is treated as true exactly
when the mute command's trimmed stdout equals `true` case-insensitively,
so a failed or empty mute query counts as unmuted, and the volume string
is then parsed as an integer for the threshold comparison. -/
theorem audio_mute_semantics (vo mu mu' : ProcResult) (n : Int)
    (h0 : vo.returncode = 0)
    (hs : mu.stdout = mu'.stdout)
    (hn : pyInt (pyStrip vo.stdout) = some n) :
    audioUpdate vo mu = audioUpdate vo mu'
  ∧ (eqCaseInsensitive (pyStrip mu.stdout) ("true") = true →
      audioUpdate vo mu = some ("🔇 " ++ pyStrip vo.stdout ++ "%"))
  ∧ (eqCaseInsensitive (pyStrip mu.stdout) ("true") = false →
      audioUpdate vo mu = some
        ((if Frac.lt ⟨n, 1⟩ ⟨333, 10⟩ then "🔈 "
          else if Frac.lt ⟨n, 1⟩ ⟨663, 10⟩ then "🔉 " else "🔊 ")
          ++ pyStrip vo.stdout ++ "%")) := by
  refine ⟨?_, fun hm => ?_, fun hm => ?_⟩
  · rw [audioUpdate, audioUpdate, hs]
  · have hup : pyUpper (pyStrip mu.stdout) = "TRUE" := (pyUpper_TRUE_iff _).mpr hm
    rw [audioUpdate, if_neg (by rw [h0]; exact fun hne => hne rfl)]
    simp only [beq_iff_eq, hup, if_true]
  · have hup : pyUpper (pyStrip mu.stdout) ≠ "TRUE" := by
      intro he
      have := (pyUpper_TRUE_iff _).mp he
      exact Bool.noConfusion (this.symm.trans hm)
    rw [audioUpdate, if_neg (by rw [h0]; exact fun hne => hne rfl)]
    simp only [beq_iff_eq, hup, if_false, hn]
    split <;> first | rfl | (split <;> rfl)

theorem audio_mute_semantics_witness :
    audioUpdate ⟨0, "50"⟩ ⟨0, " True "⟩ = audioUpdate ⟨0, "50"⟩ ⟨7, " True "⟩
  ∧ audioUpdate ⟨0, "50"⟩ ⟨0, " True "⟩ = some ("🔇 50%")
  ∧ audioUpdate ⟨0, "50"⟩ ⟨1, ""⟩ = some ("🔉 50%") :=
  ⟨(audio_mute_semantics ⟨0, "50"⟩ ⟨0, " True "⟩ ⟨7, " True "⟩ 50 (by decide)
      (by decide) (by decide)).1,
   ((audio_mute_semantics ⟨0, "50"⟩ ⟨0, " True "⟩ ⟨7, " True "⟩ 50 (by decide)
      (by decide) (by decide)).2.1 (by decide)).trans (by decide),
   ((audio_mute_semantics ⟨0, "50"⟩ ⟨1, ""⟩ ⟨1, ""⟩ 50 (by decide)
      (by decide) (by decide)).2.2 (by decide)).trans (by decide)⟩

theorem hexDigitChar_hex : ∀ m, m < 16 → isHexChar (hexDigitChar m) = true := by
  decide

theorem hexDigitChar_printable :
    ∀ m, m < 16 → 32 ≤ (hexDigitChar m).toNat ∧ (hexDigitChar m).toNat ≤ 126 := by
  decide

theorem jStrChars_append {l1 l2 : List Char} (h1 : JStrChars l1)
    (h2 : JStrChars l2) : JStrChars (l1 ++ l2) := by
  induction h1 with
  | nil => simpa using h2
  | plain c hq hb h3 h ih =>
    simp only [List.cons_append]
    exact JStrChars.plain c hq hb h3 ih
  | esc c hc h ih =>
    simp only [List.cons_append]
    exact JStrChars.esc c hc ih
  | uni a b c d ha hb hc hd h ih =>
    simp only [List.cons_append]
    exact JStrChars.uni a b c d ha hb hc hd ih

theorem jStrChars_escapeChar (c : Char) : JStrChars (escapeChar c) := by
  unfold escapeChar
  split_ifs with h1 h2 h3 h4 h5 h6 h7 h8 h9
  · exact JStrChars.esc '"' (by decide) JStrChars.nil
  · exact JStrChars.esc '\\' (by decide) JStrChars.nil
  · exact JStrChars.esc 'n' (by decide) JStrChars.nil
  · exact JStrChars.esc 'r' (by decide) JStrChars.nil
  · exact JStrChars.esc 't' (by decide) JStrChars.nil
  · exact JStrChars.esc 'b' (by decide) JStrChars.nil
  · exact JStrChars.esc 'f' (by decide) JStrChars.nil
  · exact JStrChars.plain c h1 h2 h8.1 JStrChars.nil
  · simp only [hex4]
    exact JStrChars.uni _ _ _ _
      (hexDigitChar_hex _ (Nat.mod_lt _ (by decide)))
      (hexDigitChar_hex _ (Nat.mod_lt _ (by decide)))
      (hexDigitChar_hex _ (Nat.mod_lt _ (by decide)))
      (hexDigitChar_hex _ (Nat.mod_lt _ (by decide))) JStrChars.nil
  · simp only [hex4]
    exact jStrChars_append
      (JStrChars.uni _ _ _ _
        (hexDigitChar_hex _ (Nat.mod_lt _ (by decide)))
        (hexDigitChar_hex _ (Nat.mod_lt _ (by decide)))
        (hexDigitChar_hex _ (Nat.mod_lt _ (by decide)))
        (hexDigitChar_hex _ (Nat.mod_lt _ (by decide))) JStrChars.nil)
      (JStrChars.uni _ _ _ _
        (hexDigitChar_hex _ (Nat.mod_lt _ (by decide)))
        (hexDigitChar_hex _ (Nat.mod_lt _ (by decide)))
        (hexDigitChar_hex _ (Nat.mod_lt _ (by decide)))
        (hexDigitChar_hex _ (Nat.mod_lt _ (by decide))) JStrChars.nil)

theorem jStrChars_escaped (l : List Char) :
    JStrChars ((l.map escapeChar).flatten) := by
  induction l with
  | nil => exact JStrChars.nil
  | cons c cs ih =>
    simp only [List.map_cons, List.flatten_cons]
    exact jStrChars_append (jStrChars_escapeChar c) ih

theorem jString_jsonStringL (l : List Char) : JString (jsonStringL l) :=
  JString.mk _ (jStrChars_escaped l)

theorem jScalar_opt (o : Option String) : JScalar (jsonScalarOfOpt o) := by
  cases o with
  | none => exact JScalar.null
  | some s => exact JScalar.str (jString_jsonStringL s.data)

theorem jMember_memberL (k v : List Char) (hv : JScalar v) :
    JMember (memberL k v) :=
  JMember.mk (jString_jsonStringL k) hv

theorem jObject_dumpAttr (a : Attr) : JObject (dumpAttrL a) :=
  JObject.mk (JMembers.cons
    (jMember_memberL _ _ (jScalar_opt a.full_text))
    (JMembers.single (jMember_memberL _ _ (JScalar.str (jString_jsonStringL _)))))

theorem jElems_joinComma (xs : List (List Char)) (hne : xs ≠ [])
    (h : ∀ x ∈ xs, JObject x) : JElems (joinComma xs) := by
  induction xs with
  | nil => exact absurd rfl hne
  | cons x rest ih =>
    cases rest with
    | nil => exact JElems.single (h x (by simp))
    | cons y ys =>
      rw [joinComma]
      exact JElems.cons (h x (by simp))
        (ih (by simp) (fun z hz => h z (by simp [hz])))

theorem jArray_recordL (bs : List Attr) : JArray (recordL bs) := by
  cases bs with
  | nil => exact JArray.empty
  | cons a rest =>
    refine JArray.mk (jElems_joinComma _ (by simp) ?_)
    intro x hx
    obtain ⟨a2, ha2, rfl⟩ := List.mem_map.mp hx
    exact jObject_dumpAttr a2

theorem mem_uniEsc_printable (n : Nat) (d : Char)
    (hd : d ∈ '\\' :: 'u' :: hex4 n) : 32 ≤ d.toNat ∧ d.toNat ≤ 126 := by
  simp only [hex4, List.mem_cons, List.not_mem_nil, or_false] at hd
  rcases hd with rfl | rfl | rfl | rfl | rfl | rfl
  · decide
  · decide
  · exact hexDigitChar_printable _ (Nat.mod_lt _ (by decide))
  · exact hexDigitChar_printable _ (Nat.mod_lt _ (by decide))
  · exact hexDigitChar_printable _ (Nat.mod_lt _ (by decide))
  · exact hexDigitChar_printable _ (Nat.mod_lt _ (by decide))

theorem escapeChar_printable (c : Char) :
    ∀ d ∈ escapeChar c, 32 ≤ d.toNat ∧ d.toNat ≤ 126 := by
  unfold escapeChar
  split_ifs with h1 h2 h3 h4 h5 h6 h7 h8 h9 <;> intro d hd
  · fin_cases hd <;> decide
  · fin_cases hd <;> decide
  · fin_cases hd <;> decide
  · fin_cases hd <;> decide
  · fin_cases hd <;> decide
  · fin_cases hd <;> decide
  · fin_cases hd <;> decide
  · rw [List.mem_singleton] at hd
    subst hd
    exact h8
  · exact mem_uniEsc_printable _ d hd
  · rcases List.mem_append.mp hd with hd2 | hd2 <;>
      exact mem_uniEsc_printable _ d hd2

theorem jsonStringL_printable (l : List Char) :
    ∀ d ∈ jsonStringL l, 32 ≤ d.toNat ∧ d.toNat ≤ 126 := by
  intro d hd
  rw [jsonStringL] at hd
  simp only [List.mem_append, List.mem_cons, List.not_mem_nil, or_false] at hd
  rcases hd with (rfl | hd) | rfl
  · decide
  · obtain ⟨x, hx, hdx⟩ := List.mem_flatten.mp hd
    obtain ⟨c, _, rfl⟩ := List.mem_map.mp hx
    exact escapeChar_printable c d hdx
  · decide

theorem jsonScalar_printable (o : Option String) :
    ∀ d ∈ jsonScalarOfOpt o, 32 ≤ d.toNat ∧ d.toNat ≤ 126 := by
  cases o with
  | none =>
    intro d hd
    fin_cases hd <;> decide
  | some s => exact jsonStringL_printable s.data

theorem memberL_printable (k v : List Char)
    (hv : ∀ d ∈ v, 32 ≤ d.toNat ∧ d.toNat ≤ 126) :
    ∀ d ∈ memberL k v, 32 ≤ d.toNat ∧ d.toNat ≤ 126 := by
  intro d hd
  rw [memberL] at hd
  simp only [List.mem_append, List.mem_cons] at hd
  rcases hd with hd | rfl | rfl | hd
  · exact jsonStringL_printable k d hd
  · decide
  · decide
  · exact hv d hd

theorem dumpAttr_printable (a : Attr) :
    ∀ d ∈ dumpAttrL a, 32 ≤ d.toNat ∧ d.toNat ≤ 126 := by
  intro d hd
  rw [dumpAttrL] at hd
  simp only [List.mem_append, List.mem_cons, List.not_mem_nil, or_false] at hd
  rcases hd with (rfl | hd | rfl | rfl | hd) | rfl
  · decide
  · exact memberL_printable _ _ (jsonScalar_printable a.full_text) d hd
  · decide
  · decide
  · exact memberL_printable _ _ (jsonStringL_printable a.name.data) d hd
  · decide

theorem joinComma_printable (xs : List (List Char))
    (h : ∀ x ∈ xs, ∀ d ∈ x, 32 ≤ d.toNat ∧ d.toNat ≤ 126) :
    ∀ d ∈ joinComma xs, 32 ≤ d.toNat ∧ d.toNat ≤ 126 := by
  induction xs with
  | nil => intro d hd; exact absurd hd (by simp [joinComma])
  | cons x rest ih =>
    cases rest with
    | nil => exact fun d hd => h x (by simp) d hd
    | cons y ys =>
      intro d hd
      rw [joinComma] at hd
      simp only [List.mem_append, List.mem_cons] at hd
      rcases hd with hd | rfl | rfl | hd
      · exact h x (by simp) d hd
      · decide
      · decide
      · exact ih (fun z hz => h z (by simp [hz])) d hd

theorem statusline_chars_printable (bs : List Attr) :
    ∀ d ∈ recordL bs ++ [','], 32 ≤ d.toNat ∧ d.toNat ≤ 126 := by
  intro d hd
  simp only [recordL, List.mem_append, List.mem_cons, List.not_mem_nil,
    or_false] at hd
  rcases hd with ((rfl | hd) | rfl) | rfl
  · decide
  · refine joinComma_printable _ ?_ d hd
    intro x hx
    obtain ⟨a2, ha2, rfl⟩ := List.mem_map.mp hx
    exact dumpAttr_printable a2
  · decide
  · decide

/-- Claim C8: every record emitted by `StatusLine.print` is the JSON
serialization of the sequence of its blocks' attribute objects in
construction order (the serialized objects appear in list order), it is a
syntactically valid JSON array, and it is immediately followed by a
trailing comma on the same line (the record contains no newline
character). -/
theorem statusline_print_record (bs : List Attr) :
    (statusLinePrint bs).data = recordL bs ++ [',']
  ∧ recordL bs = '[' :: joinComma (bs.map dumpAttrL) ++ [']']
  ∧ JArray (recordL bs)
  ∧ ∀ c ∈ (statusLinePrint bs).data, c ≠ '\n' := by
  refine ⟨rfl, rfl, jArray_recordL bs, fun c hc => ?_⟩
  have hp := statusline_chars_printable bs c hc
  intro he
  subst he
  exact absurd hp (by decide)

theorem statusline_print_record_witness :
    ('[' : Char) ∈ (statusLinePrint [⟨some ("12:30"), "time"⟩]).data
  ∧ ('[' : Char) ≠ '\n' :=
  ⟨by decide,
   (statusline_print_record [⟨some ("12:30"), "time"⟩]).2.2.2 '[' (by decide)⟩
